import Mathlib

namespace App

/-!
Verification of the asynchronous document-extraction pipeline
(`app/services.py`, `app/tasks.py`, `app/main.py`).

The Python sources are shallowly embedded: pure functions become Lean
functions, exception-raising code returns `Except String`, and the
Celery/Redis state touched by the query endpoints is modelled as explicit
state records.  Machine strings are Lean `String`/`List Char`.
-/

/-! ## Data model (`app/services.py`, classes `Table` and `ExtractedData`) -/

/-- `class Table(BaseModel): headers: list[str]; rows: list[list[str]]` -/
structure Table where
  headers : List String
  rows : List (List String)
deriving DecidableEq

/-- `class ExtractedData(BaseModel): text: str = ""; tables: list[Table] = []` -/
structure ExtractedData where
  text : String
  tables : List Table
deriving DecidableEq

/-! ## Markdown assembler (`generate_markdown`, `app/services.py` lines 140-153)

The Python function accumulates into `markdown_output` with `+=` inside
nested loops; the Lean model threads the accumulator explicitly through
one recursive function per loop. -/

/-- `"|".join(xs)` -/
def barJoin (xs : List String) : String := String.intercalate "|" xs

/-- Inner loop `for row in table.rows: markdown_output += "|" + "|".join(row) + "|\n"`. -/
def rowsLoop (acc : String) : List (List String) → String
  | [] => acc
  | r :: rs => rowsLoop (acc ++ "|" ++ barJoin r ++ "|\n") rs

/-- Middle loop `for i, table in enumerate(data.tables)` of `generate_markdown`. -/
def tablesLoop (pageNum : Nat) (i : Nat) (acc : String) : List Table → String
  | [] => acc
  | t :: ts =>
    tablesLoop pageNum (i + 1)
      (rowsLoop
        (acc ++ "## Table " ++ toString (i + 1) ++ " (Page " ++ toString (pageNum + 1)
          ++ ")\n\n"
          ++ "|" ++ barJoin t.headers ++ "|\n"
          ++ "|" ++ barJoin (List.replicate t.headers.length "---") ++ "|\n")
        t.rows ++ "\n") ts

/-- Outer loop `for page_num, data in enumerate(extracted_data_list)`;
`if data.text:` is Python string truthiness, i.e. non-emptiness. -/
def pagesLoop (pageNum : Nat) (acc : String) : List ExtractedData → String
  | [] => acc
  | d :: ds =>
    pagesLoop (pageNum + 1)
      (tablesLoop pageNum 0
        (acc ++ (if d.text = "" then "" else d.text ++ "\n\n")) d.tables
        ++ "---\n\n") ds

/-- `generate_markdown(extracted_data_list)` -/
def generate_markdown (l : List ExtractedData) : String := pagesLoop 0 "" l

/-! Closed-form (concatenation-of-blocks) view of the assembler, used to
state the rendering-format claims. -/

/-- All data rows of one table, rendered. -/
def rowsStr (rs : List (List String)) : String :=
  String.join (rs.map (fun r => "|" ++ barJoin r ++ "|\n"))

/-- One table: heading, header row, separator row (one `---` cell per
header), data rows, blank line.  `p` and `i` are 0-based. -/
def tableBlock (p i : Nat) (t : Table) : String :=
  "## Table " ++ toString (i + 1) ++ " (Page " ++ toString (p + 1) ++ ")\n\n"
    ++ "|" ++ barJoin t.headers ++ "|\n"
    ++ "|" ++ barJoin (List.replicate t.headers.length "---") ++ "|\n"
    ++ rowsStr t.rows ++ "\n"

/-- Tables of one document starting at table index `i`. -/
def tableBlocksFrom (p i : Nat) : List Table → String
  | [] => ""
  | t :: ts => tableBlock p i t ++ tableBlocksFrom p (i + 1) ts

/-- Everything one document contributes before its page separator. -/
def docContent (p : Nat) (d : ExtractedData) : String :=
  (if d.text = "" then "" else d.text ++ "\n\n") ++ tableBlocksFrom p 0 d.tables

/-- One document's full contribution, separator included. -/
def docBlock (p : Nat) (d : ExtractedData) : String :=
  docContent p d ++ "---\n\n"

/-- The documents starting at page index `p`. -/
def docBlocksFrom (p : Nat) : List ExtractedData → String
  | [] => ""
  | d :: ds => docBlock p d ++ docBlocksFrom (p + 1) ds

/-! ## Python string primitives used by the extraction-result parser
(`app/services.py` lines 54-79 and 115-129) -/

/-- Python `str.strip()` whitespace: exactly the code points on which
CPython's `str.isspace()` is true — `\t\n\v\f\r`, `\x1c`-`\x1f`, space,
`\x85` (NEL), `\xa0` (NBSP), and the Unicode space separators and
line/paragraph separators. -/
def pyIsSpace (c : Char) : Bool :=
  (0x09 ≤ c.toNat && c.toNat ≤ 0x0d)
  || (0x1c ≤ c.toNat && c.toNat ≤ 0x1f)
  || c.toNat = 0x20
  || c.toNat = 0x85
  || c.toNat = 0xa0
  || c.toNat = 0x1680
  || (0x2000 ≤ c.toNat && c.toNat ≤ 0x200a)
  || c.toNat = 0x2028
  || c.toNat = 0x2029
  || c.toNat = 0x202f
  || c.toNat = 0x205f
  || c.toNat = 0x3000

/-- Python `s.strip()`. -/
def pyStrip (cs : List Char) : List Char :=
  (((cs.dropWhile pyIsSpace).reverse).dropWhile pyIsSpace).reverse

/-- Python `s.startswith(p)`; first argument is the pattern. -/
def startsWithL : List Char → List Char → Bool
  | [], _ => true
  | _ :: _, [] => false
  | p :: ps, c :: cs => p = c && startsWithL ps cs

/-- Python `s.endswith(p)`; first argument is the pattern. -/
def endsWithL (p cs : List Char) : Bool :=
  startsWithL p.reverse cs.reverse

/-- Python slice `data[7:-3]` (empty when fewer than 10 characters). -/
def sliceMid (cs : List Char) : List Char :=
  (cs.drop 7).take (cs.length - 10)

/-- The fence test `data.startswith("```json") and data.endswith("```")`. -/
def fencedCheck (data : List Char) : Bool :=
  startsWithL ("```json".data) data && endsWithL ("```".data) data

/-! ## JSON values and a model of Python `json.loads`

`json.loads` is standard-library code, so it is modelled rather than
transcribed.  The model covers CPython's JSON grammar: objects, arrays,
strings with `\" \\ \/ \b \f \n \r \t \uXXXX` escapes, numbers (ints,
float/exponent forms with the no-leading-zero rule, and the accepted
constants `NaN`/`Infinity`/`-Infinity`), `true`/`false`/`null`, and
inter-token whitespace; every failure of `json.loads` is a
`JSONDecodeError`, modelled as `none`.  Out of modelled scope: `\uXXXX`
surrogate pairs (which Lean's `Char` cannot carry) and the numeric value
of floats (carried as uninterpreted literal text, see `JVal.jfloat`) —
no claim below depends on those. -/

/-- A decoded Python JSON value (`dict`s as ordered field lists, later
duplicate keys shadowing earlier ones as in CPython).  Python floats —
fraction/exponent number forms and the `NaN`/`Infinity`/`-Infinity`
constants CPython accepts — are carried as their uninterpreted literal
text (`jfloat`): the repository's parser only ever rejects numbers, so
no claim depends on a float's numeric value, only on where `json.loads`
succeeds and how much input a number token consumes. -/
inductive JVal where
  | jnull : JVal
  | jbool : Bool → JVal
  | jnum : Int → JVal
  | jfloat : List Char → JVal
  | jstr : List Char → JVal
  | jarr : List JVal → JVal
  | jobj : List (List Char × JVal) → JVal

/-- JSON inter-token whitespace. -/
def jWs (c : Char) : Bool :=
  c = ' ' || c = '\t' || c = '\n' || c = '\r'

/-- Skip JSON whitespace. -/
def skipWs (cs : List Char) : List Char := cs.dropWhile jWs

/-- Value of one hex digit. -/
def hexVal (c : Char) : Option Nat :=
  if '0' ≤ c && c ≤ '9' then some (c.toNat - 48)
  else if 'a' ≤ c && c ≤ 'f' then some (c.toNat - 87)
  else if 'A' ≤ c && c ≤ 'F' then some (c.toNat - 55)
  else none

/-- Decoded character of a single-letter escape `\e`. -/
def escChar (e : Char) : Option Char :=
  if e = '"' then some '"'
  else if e = '\\' then some '\\'
  else if e = '/' then some '/'
  else if e = 'b' then some '\x08'
  else if e = 'f' then some '\x0c'
  else if e = 'n' then some '\n'
  else if e = 'r' then some '\r'
  else if e = 't' then some '\t'
  else none

/-- Decode a JSON string body after the opening quote; returns the decoded
characters and the input after the closing quote.  Control characters must
be escaped (CPython's strict mode).  Any four-hex-digit `\uXXXX` is
accepted, as in CPython; code units in the surrogate range — which
CPython keeps as (or combines into) code points Lean's `Char` cannot
carry — are substituted by U+FFFD, which never changes a success/failure
outcome downstream because the repository compares strings only against
the ASCII keys `text`/`tables`/`headers`/`rows`. -/
def parseStringBody : List Char → Option (List Char × List Char)
  | [] => none
  | c :: r =>
    if c = '"' then some ([], r)
    else if c = '\\' then
      match r with
      | 'u' :: h1 :: h2 :: h3 :: h4 :: r2 =>
        (match hexVal h1, hexVal h2, hexVal h3, hexVal h4 with
         | some a, some b, some x, some y =>
           let n := ((a * 16 + b) * 16 + x) * 16 + y
           if n < 0xd800 ∨ 0xe000 ≤ n then
             (parseStringBody r2).map (fun p => (Char.ofNat n :: p.1, p.2))
           else (parseStringBody r2).map (fun p => ('\uFFFD' :: p.1, p.2))
         | _, _, _, _ => none)
      | e :: r2 =>
        (match escChar e with
         | some ec => (parseStringBody r2).map (fun p => (ec :: p.1, p.2))
         | none => none)
      | [] => none
    else if c.toNat < 0x20 then none
    else (parseStringBody r).map (fun p => (c :: p.1, p.2))

/-- ASCII digit test. -/
def isDigit (c : Char) : Bool := '0' ≤ c && c ≤ '9'

/-- Maximal run of digits at the front of the input. -/
def takeDigits : List Char → List Char × List Char
  | c :: r =>
    if isDigit c then
      (match takeDigits r with
       | (ds, r2) => (c :: ds, r2))
    else ([], c :: r)
  | [] => ([], [])

/-- Value of a digit run, most significant first. -/
def digitsToNat (acc : Nat) : List Char → Nat
  | [] => acc
  | c :: r => digitsToNat (acc * 10 + (c.toNat - 48)) r

/-- Integer part of a JSON number after the optional sign: `0` or a
non-zero digit followed by more digits — a leading zero ends the token
immediately (CPython's `NUMBER_RE`, so `0123` decodes `0` and leaves
`123` as extra data). -/
def numIntPart : List Char → Option (List Char × List Char)
  | c :: r =>
    if c = '0' then some (['0'], r)
    else if isDigit c then
      (match takeDigits r with
       | (ds, r2) => some (c :: ds, r2))
    else none
  | [] => none

/-- Optional fraction `.digits`; a `.` not followed by a digit is not
consumed (the number ends before it, as in CPython's regex). -/
def numFracPart : List Char → List Char × List Char
  | c :: r =>
    if c = '.' then
      (match takeDigits r with
       | ([], _) => ([], c :: r)
       | (ds, r2) => (c :: ds, r2))
    else ([], c :: r)
  | [] => ([], [])

/-- Optional exponent `[eE][+-]?digits`; consumed only when complete. -/
def numExpPart : List Char → List Char × List Char
  | e :: r =>
    if e = 'e' || e = 'E' then
      (match r with
       | s :: r2 =>
         if s = '+' || s = '-' then
           (match takeDigits r2 with
            | ([], _) => ([], e :: r)
            | (ds, r3) => (e :: s :: ds, r3))
         else
           (match takeDigits r with
            | ([], _) => ([], e :: r)
            | (ds, r3) => (e :: ds, r3))
       | [] => ([], [e]))
    else ([], e :: r)
  | [] => ([], [])

/-- Parse a JSON number starting at the integer part: an int when
neither fraction nor exponent is present, a float literal otherwise. -/
def parseNumAfterSign (neg : Bool) (cs : List Char) : Option (JVal × List Char) :=
  match numIntPart cs with
  | none => none
  | some (ip, r1) =>
    match numFracPart r1 with
    | (fp, r2) =>
      match numExpPart r2 with
      | (ep, r3) =>
        if fp.isEmpty && ep.isEmpty then
          if neg then some (JVal.jnum (-(digitsToNat 0 ip : Int)), r1)
          else some (JVal.jnum (digitsToNat 0 ip : Int), r1)
        else
          if neg then some (JVal.jfloat ('-' :: (ip ++ fp ++ ep)), r3)
          else some (JVal.jfloat (ip ++ fp ++ ep), r3)

/-- Parse a JSON number token, or the non-standard constant `-Infinity`
(CPython's scanner accepts `NaN`, `Infinity` and `-Infinity` by default;
the unsigned two are handled at value dispatch). -/
def parseNumber : List Char → Option (JVal × List Char)
  | '-' :: r =>
    if startsWithL ("Infinity".data) r then
      some (JVal.jfloat ("-Infinity".data), r.drop 8)
    else parseNumAfterSign true r
  | cs => parseNumAfterSign false cs

mutual

/-- Parse one JSON value; `fuel` bounds recursion depth and is chosen
ample by `jsonLoads`. -/
def parseVal : Nat → List Char → Option (JVal × List Char)
  | 0, _ => none
  | f + 1, cs =>
    match skipWs cs with
    | [] => none
    | c :: rest =>
      if c = '"' then (parseStringBody rest).map (fun p => (JVal.jstr p.1, p.2))
      else if c = '[' then
        (if (skipWs rest).head? = some ']' then some (JVal.jarr [], (skipWs rest).tail)
         else (parseItemsNE f rest).map (fun p => (JVal.jarr p.1, p.2)))
      else if c = '\x7b' then
        (if (skipWs rest).head? = some '\x7d' then some (JVal.jobj [], (skipWs rest).tail)
         else (parseFieldsNE f rest).map (fun p => (JVal.jobj p.1, p.2)))
      else if c = 't' then
        (if startsWithL ("rue".data) rest then some (JVal.jbool true, rest.drop 3) else none)
      else if c = 'f' then
        (if startsWithL ("alse".data) rest then some (JVal.jbool false, rest.drop 4) else none)
      else if c = 'n' then
        (if startsWithL ("ull".data) rest then some (JVal.jnull, rest.drop 3) else none)
      else if c = 'N' then
        (if startsWithL ("aN".data) rest then some (JVal.jfloat ("NaN".data), rest.drop 2)
         else none)
      else if c = 'I' then
        (if startsWithL ("nfinity".data) rest then
          some (JVal.jfloat ("Infinity".data), rest.drop 7)
         else none)
      else parseNumber (c :: rest)

/-- Parse the comma-separated elements of a non-empty array, up to and
including the closing bracket. -/
def parseItemsNE : Nat → List Char → Option (List JVal × List Char)
  | 0, _ => none
  | f + 1, cs =>
    match parseVal f cs with
    | none => none
    | some (v, r) =>
      if (skipWs r).head? = some ',' then
        (match parseItemsNE f (skipWs r).tail with
         | none => none
         | some (vs, r3) => some (v :: vs, r3))
      else if (skipWs r).head? = some ']' then some ([v], (skipWs r).tail)
      else none

/-- Parse the `"key": value` members of a non-empty object, up to and
including the closing brace. -/
def parseFieldsNE : Nat → List Char → Option (List (List Char × JVal) × List Char)
  | 0, _ => none
  | f + 1, cs =>
    if (skipWs cs).head? = some '"' then
      match parseStringBody (skipWs cs).tail with
      | none => none
      | some (k, r) =>
        if (skipWs r).head? = some ':' then
          match parseVal f (skipWs r).tail with
          | none => none
          | some (v, r3) =>
            if (skipWs r3).head? = some ',' then
              (match parseFieldsNE f (skipWs r3).tail with
               | none => none
               | some (fs, r5) => some ((k, v) :: fs, r5))
            else if (skipWs r3).head? = some '\x7d' then some ([(k, v)], (skipWs r3).tail)
            else none
        else none
    else none

end

/-- Model of `json.loads`: parse one value, then require only whitespace
to remain.  The fuel `2 * |s| + 2` always suffices, since at least one
character is consumed between every second recursive call. -/
def jsonLoads (s : List Char) : Option JVal :=
  match parseVal (2 * s.length + 2) s with
  | some (v, rest) => if (skipWs rest).isEmpty then some v else none
  | none => none

/-! ## Structured decode of the fenced payload
(`app/services.py` lines 54-79; the identical block at lines 115-129)

The Python code runs, inside `try: ... except json.JSONDecodeError:`,
the fence check on the stripped raw text, slices away the fences, decodes
with `json.loads`, and builds
`ExtractedData(text=parsed_data.get("text", ""),
tables=[Table(**t) for t in parsed_data.get("tables", [])])`,
falling back to `ExtractedData(text=response.text or "")` otherwise.

Only `json.JSONDecodeError` is caught; pydantic validation errors,
`AttributeError` (`.get` on a non-dict) and `TypeError` (iterating a
non-iterable, `**` on a non-mapping) propagate out of the block.  The
embedding returns `Except.error` for those propagating exceptions. -/

/-- Python `dict.get` after JSON decoding: the last binding of a key wins
(later duplicate keys overwrite earlier ones in CPython dicts). -/
def objGet (k : List Char) (fs : List (List Char × JVal)) : Option JVal :=
  match fs with
  | [] => none
  | (k', v) :: rest =>
    match objGet k rest with
    | some w => some w
    | none => if k' = k then some v else none

/-- Pydantic validation of a `str` field: only a JSON string is accepted. -/
def asStr : JVal → Option String
  | JVal.jstr s => some (String.mk s)
  | _ => none

/-- Validate every element of a JSON array as a string. -/
def strListOfJ : List JVal → Option (List String)
  | [] => some []
  | v :: vs =>
    match asStr v with
    | none => none
    | some s =>
      match strListOfJ vs with
      | none => none
      | some ss => some (s :: ss)

/-- Pydantic validation of a `list[str]` field. -/
def asStrList : JVal → Option (List String)
  | JVal.jarr xs => strListOfJ xs
  | _ => none

/-- Validate every element of a JSON array as a list of strings. -/
def rowListOfJ : List JVal → Option (List (List String))
  | [] => some []
  | v :: vs =>
    match asStrList v with
    | none => none
    | some r =>
      match rowListOfJ vs with
      | none => none
      | some rs => some (r :: rs)

/-- Pydantic validation of a `list[list[str]]` field. -/
def asRows : JVal → Option (List (List String))
  | JVal.jarr xs => rowListOfJ xs
  | _ => none

/-- `Table(**t)`: `t` must be a JSON object (a mapping) supplying a valid
`headers` and a valid `rows`; extra keys are ignored (pydantic default).
Any other shape raises, modelled as `Except.error`. -/
def tableOfJson : JVal → Except String Table
  | JVal.jobj fs =>
    match objGet ("headers".data) fs with
    | none => Except.error "validation error for Table: headers field required"
    | some hv =>
      match asStrList hv with
      | none => Except.error "validation error for Table: headers must be a list of strings"
      | some hs =>
        match objGet ("rows".data) fs with
        | none => Except.error "validation error for Table: rows field required"
        | some rv =>
          match asRows rv with
          | none => Except.error "validation error for Table: rows must be a list of lists of strings"
          | some rs => Except.ok ⟨hs, rs⟩
  | _ => Except.error "TypeError: argument after ** must be a mapping"

/-- The comprehension `[Table(**t) for t in ...]`: elements in order, the
first raising element aborts the whole comprehension. -/
def tablesOfJson : List JVal → Except String (List Table)
  | [] => Except.ok []
  | t :: ts =>
    match tableOfJson t with
    | Except.error e => Except.error e
    | Except.ok tb =>
      match tablesOfJson ts with
      | Except.error e => Except.error e
      | Except.ok tbs => Except.ok (tb :: tbs)

/-- Iterating `parsed_data.get("tables", [])`: a JSON array yields its
elements; an empty string or empty object iterates zero times (Python
iterates `str` by character and `dict` by key, so only the empty cases
avoid the `Table(**t)` `TypeError`); anything else raises. -/
def tablesIter : Option JVal → Except String (List Table)
  | none => Except.ok []
  | some (JVal.jarr xs) => tablesOfJson xs
  | some (JVal.jstr []) => Except.ok []
  | some (JVal.jobj []) => Except.ok []
  | some (JVal.jstr (_ :: _)) => Except.error "TypeError: argument after ** must be a mapping"
  | some (JVal.jobj (_ :: _)) => Except.error "TypeError: argument after ** must be a mapping"
  | some _ => Except.error "TypeError: object is not iterable"

/-- Building `ExtractedData(text=parsed_data.get("text", ""), tables=[...])`
from the decoded JSON value.  A non-dict raises `AttributeError` at
`.get`; the comprehension (and its `Table` validations) runs before
pydantic validates the `text` keyword at `ExtractedData(...)`. -/
def extractedOfJson : JVal → Except String ExtractedData
  | JVal.jobj fs =>
    (match tablesIter (objGet ("tables".data) fs) with
     | Except.error e => Except.error e
     | Except.ok tbs =>
       match asStr ((objGet ("text".data) fs).getD (JVal.jstr [])) with
       | none => Except.error "validation error for ExtractedData: text must be a string"
       | some tx => Except.ok ⟨tx, tbs⟩)
  | _ => Except.error "AttributeError: object has no attribute get"

/-- The parser block of `extract_content_from_image` (lines 54-79) as a
function of the raw provider text `response.text or ""`.  `Except.ok` is
the value returned from the block; `Except.error` is an exception escaping
the `except json.JSONDecodeError` handler (the outer handler then turns it
into an `HTTPException`).  The block at lines 115-129 of
`extract_content_from_pdf` is the same computation wrapped in a
singleton list. -/
def parse (rawText : String) : Except String ExtractedData :=
  if fencedCheck (pyStrip rawText.data) then
    match jsonLoads (pyStrip (sliceMid (pyStrip rawText.data))) with
    | none => Except.ok ⟨rawText, []⟩
    | some v => extractedOfJson v
  else Except.ok ⟨rawText, []⟩

/-! ## Worker execution engine (`process_file`, `app/tasks.py` lines 34-90)

The Celery task body is a pure decision tree over: whether the staged
file exists, the declared mime type, and the outcome of the provider
call (an `Except`: `Except.error` models `extract_content_from_pdf` /
`extract_content_from_image` raising, e.g. the `HTTPException` they wrap
all their failures in; reading the image bytes from disk is folded into
the image extraction outcome).  The best-effort `path.unlink` cleanups
swallow their own exceptions and do not affect the returned value, so
they are omitted. -/

/-- The dict `process_file` returns: `{markdown, input_tokens,
output_tokens}` on success, `{error}` on failure. -/
inductive WorkerResult where
  | ok : String → Nat → Nat → WorkerResult
  | err : String → WorkerResult
deriving DecidableEq

/-- Inputs a single `process_file` invocation depends on. -/
structure WorkerEnv where
  fileExists : Bool
  pdfExtract : Except String (List ExtractedData × Nat × Nat)
  imageExtract : Except String (ExtractedData × Nat × Nat)

/-- The `try:` body of `process_file`; `Except.error` is an exception
reaching the task-level `except Exception` handler. -/
def process_file_body (env : WorkerEnv) (file_path mime_type : String) :
    Except String WorkerResult :=
  if env.fileExists = false then
    Except.ok (WorkerResult.err ("File not found: " ++ file_path))
  else if mime_type = "application/pdf" then
    match env.pdfExtract with
    | Except.error e => Except.error e
    | Except.ok (docs, it, ot) => Except.ok (WorkerResult.ok (generate_markdown docs) it ot)
  else if startsWithL ("image/".data) mime_type.data then
    match env.imageExtract with
    | Except.error e => Except.error e
    | Except.ok (doc, it, ot) => Except.ok (WorkerResult.ok (generate_markdown [doc]) it ot)
  else
    Except.ok (WorkerResult.err ("Unsupported file type: " ++ mime_type))

/-- `process_file` with its `except Exception as e: return {"error": str(e)}`
handler: the worker converts every exception into an `{error}` result. -/
def process_file (env : WorkerEnv) (file_path mime_type : String) : WorkerResult :=
  match process_file_body env file_path mime_type with
  | Except.ok r => r
  | Except.error e => WorkerResult.err e

/-! ## Status/result query and dispatcher (`app/main.py`)

The Celery result backend is modelled as a partial map from task id to
task meta; `AsyncResult(task_id).state` reads it and reports `PENDING`
for an id the backend has no entry for (Celery cannot distinguish an
unknown id from a genuinely pending task).  `.delay` only enqueues a
message; it writes nothing into the result backend, so a freshly
submitted task also reads as `PENDING`.  The stored success `result`
value is one actually written by this app's worker, i.e. a
`WorkerResult`. -/

/-- Task meta as held by the Celery result backend for one task id. -/
inductive CeleryMeta where
  | pending
  | started
  | retry
  | success : WorkerResult → CeleryMeta
  | failure : String → CeleryMeta
  | revoked
deriving DecidableEq

/-- `AsyncResult(task_id).state` over a backend: unknown ids read PENDING. -/
def stateOf (backend : String → Option CeleryMeta) (id : String) : CeleryMeta :=
  (backend id).getD CeleryMeta.pending

/-- `AsyncResult.ready()`: state is one of SUCCESS, FAILURE, REVOKED. -/
def celeryReady : CeleryMeta → Bool
  | CeleryMeta.success _ => true
  | CeleryMeta.failure _ => true
  | CeleryMeta.revoked => true
  | _ => false

/-- Display name of a state, as `task.status` returns it. -/
def statusName : CeleryMeta → String
  | CeleryMeta.pending => "PENDING"
  | CeleryMeta.started => "STARTED"
  | CeleryMeta.retry => "RETRY"
  | CeleryMeta.success _ => "SUCCESS"
  | CeleryMeta.failure _ => "FAILURE"
  | CeleryMeta.revoked => "REVOKED"

/-- Outcome of one request to `/api/tasks/{task_id}/result`. -/
inductive HttpOutcome where
  | ok : String → HttpOutcome
  | httpError : Nat → String → HttpOutcome
deriving DecidableEq

/-- `get_task_result_json` (`app/main.py` lines 262-293): if the task is
ready and successful, inspect the result dict (`error` key → 500 with that
message, `markdown` key → 200); if ready but failed, re-raise inside the
endpoint and answer 500 `Task failed: <e>`; everything not ready — which
includes every identifier the backend does not know — answers
404 `Task not ready yet.`.  The Redis metadata store is never consulted. -/
def get_task_result_json (backend : String → Option CeleryMeta) (task_id : String) :
    HttpOutcome :=
  match stateOf backend task_id with
  | CeleryMeta.success r =>
    (match r with
     | WorkerResult.err e => HttpOutcome.httpError 500 e
     | WorkerResult.ok md _ _ => HttpOutcome.ok md)
  | CeleryMeta.failure e => HttpOutcome.httpError 500 ("Task failed: " ++ e)
  | CeleryMeta.revoked => HttpOutcome.httpError 500 ("Task failed: " ++ "revoked")
  | _ => HttpOutcome.httpError 404 "Task not ready yet."

/-! ## Task submission (`create_upload_file`, `app/main.py` lines 134-216)

The endpoint validates size (via `validate_file_size`, `app/utils.py`),
filename and mime type (via `validate_mime_type`), stages the file, calls
`process_file.delay(...)` — which enqueues the task under a fresh Celery
id and leaves the result backend untouched — stores metadata in Redis,
and answers with the task id.  Non-deterministic inputs (the generated
task id, the clock) are passed as parameters. -/

/-- Submission-time metadata stored under `task_metadata:{task.id}`. -/
structure TaskMetadata where
  task_id : String
  filename : String
  file_size : Nat
  mime_type : String
  timestamp : Nat
  status : String
deriving DecidableEq

/-- The application state the upload endpoint touches. -/
structure AppState where
  backend : String → Option CeleryMeta
  metaStore : String → Option TaskMetadata
  taskList : List String

/-- `validate_mime_type` (`app/utils.py` lines 75-93). -/
def validate_mime_type (mime : String) : Bool :=
  mime = "application/pdf" || startsWithL ("image/".data) mime.data

/-- `create_upload_file` happy-path logic: `Except.error (status, detail)`
models `raise HTTPException`, `Except.ok (st, task_id)` the JSON
response's `task_id` together with the updated state. -/
def create_upload_file (maxFileSize : Nat) (st : AppState) (freshId : String)
    (filename : String) (fileSize : Nat) (mime : String) (now : Nat) :
    Except (Nat × String) (AppState × String) :=
  if fileSize = 0 then
    Except.error (400, "Empty file uploaded")
  else if maxFileSize < fileSize then
    Except.error (413, "File size " ++ toString fileSize
      ++ " exceeds maximum allowed size of " ++ toString maxFileSize ++ " bytes")
  else if filename = "" then
    Except.error (400, "No filename provided")
  else if (pyStrip filename.data).isEmpty then
    Except.error (400, "No filename provided")
  else if validate_mime_type mime = false then
    Except.error (400, "Unsupported file type: " ++ mime
      ++ ". Supported types: ['application/pdf', 'image/jpeg', 'image/png', 'image/gif', 'image/bmp', 'image/tiff']")
  else
    let meta : TaskMetadata :=
      ⟨freshId, filename, fileSize, mime, now, statusName (stateOf st.backend freshId)⟩
    Except.ok
      (⟨st.backend,
        fun id => if id = freshId then some meta else st.metaStore id,
        freshId :: st.taskList⟩,
       freshId)

/-! ## Round-trip: a canonical fenced JSON encoding of an
`ExtractedData` document, and its recovery by `parse` (claim C4)

`encodeDoc` below is a canonical well-formed JSON emitter for the
document shape the provider is instructed to produce: an object with a
`text` string and a `tables` array of `\x7bheaders, rows\x7d` objects, in
compact form, with quotes, backslashes and control characters escaped.
`docVal` is the JSON value such an encoding denotes. -/

/-- Lower-case hex digit for `n < 16`. -/
def hexDigitChar (n : Nat) : Char :=
  if n < 10 then Char.ofNat (48 + n) else Char.ofNat (87 + n)

/-- Encode one character of a JSON string: escape the quote, the
backslash, and (as `\u00XX`) every control character. -/
def encChar (c : Char) : List Char :=
  if c = '"' then ['\\', '"']
  else if c = '\\' then ['\\', '\\']
  else if c.toNat < 0x20 then
    ['\\', 'u', '0', '0', hexDigitChar (c.toNat / 16), hexDigitChar (c.toNat % 16)]
  else [c]

/-- Encode a JSON string body. -/
def encStrBody : List Char → List Char
  | [] => []
  | c :: cs => encChar c ++ encStrBody cs

/-- Encode a JSON string, quotes included. -/
def encStr (s : List Char) : List Char := '"' :: (encStrBody s ++ ['"'])

/-- Comma-separated encodings of the list's elements. -/
def encSep (enc : α → List Char) : List α → List Char
  | [] => []
  | [a] => enc a
  | a :: as => enc a ++ (',' :: encSep enc as)

/-- Bracketed encoding: opening character, payload, closing character. -/
def encWrap (o c : Char) (inner : List Char) : List Char := o :: (inner ++ [c])

/-- Encode a JSON array. -/
def encArr (enc : α → List Char) (xs : List α) : List Char :=
  encWrap '[' ']' (encSep enc xs)

/-- Encode one table row (an array of strings). -/
def encRow (r : List String) : List Char := encArr (fun s => encStr s.data) r

/-- Encode one table as `{"headers": [...], "rows": [...]}`. -/
def encTable (t : Table) : List Char :=
  encWrap '\x7b' '\x7d'
    (encStr ("headers".data) ++ (':' :: encArr (fun s => encStr s.data) t.headers)
      ++ (',' :: encStr ("rows".data)) ++ (':' :: encArr encRow t.rows))

/-- Encode a document as `{"text": "...", "tables": [...]}`. -/
def encodeDoc (d : ExtractedData) : List Char :=
  encWrap '\x7b' '\x7d'
    (encStr ("text".data) ++ (':' :: encStr d.text.data)
      ++ (',' :: encStr ("tables".data)) ++ (':' :: encArr encTable d.tables))

/-- Wrap a JSON payload in the provider's markdown fences. -/
def fenceWrap (s : List Char) : String :=
  String.mk ("```json\n".data ++ s ++ "\n```".data)

/-- JSON value denoted by an encoded string. -/
def strVal (s : String) : JVal := JVal.jstr s.data

/-- JSON value denoted by an encoded row. -/
def rowVal (r : List String) : JVal := JVal.jarr (r.map strVal)

/-- JSON value denoted by an encoded table. -/
def tableVal (t : Table) : JVal :=
  JVal.jobj [("headers".data, JVal.jarr (t.headers.map strVal)),
             ("rows".data, JVal.jarr (t.rows.map rowVal))]

/-- JSON value denoted by an encoded document. -/
def docVal (d : ExtractedData) : JVal :=
  JVal.jobj [("text".data, JVal.jstr d.text.data),
             ("tables".data, JVal.jarr (d.tables.map tableVal))]

/-- An element encoder whose output always starts with a non-whitespace,
non-`]` character and parses back to the element's value within fuel `b`. -/
def ElemEnc (enc : α → List Char) (val : α → JVal) (b : α → Nat) : Prop :=
  (∀ a, ∃ c t, enc a = c :: t ∧ jWs c = false ∧ c ≠ ']')
  ∧ (∀ a f rest, b a ≤ f → parseVal f (enc a ++ rest) = some (val a, rest))

/-- Total fuel bound of a list of elements. -/
def sumB (b : α → Nat) : List α → Nat
  | [] => 0
  | a :: as => b a + sumB b as

/-- Fuel bound sufficient to parse one encoded table. -/
def bTable (t : Table) : Nat :=
  (2 * t.headers.length + 1)
    + (sumB (fun r => 2 * r.length + 1) t.rows + t.rows.length + 1) + 3

/-- Fuel bound sufficient to parse one encoded document. -/
def bDoc (d : ExtractedData) : Nat :=
  1 + (sumB bTable d.tables + d.tables.length + 1) + 3

theorem strJoin_nil : String.join ([] : List String) = "" := rfl

theorem strFoldl_shift (l : List String) :
    ∀ s : String, l.foldl (· ++ ·) s = s ++ l.foldl (· ++ ·) "" := by
  induction l with
  | nil => intro s; simp [List.foldl]
  | cons x xs ih =>
    intro s
    simp only [List.foldl]
    rw [ih, ih (_ ++ _)]
    simp [String.append_assoc]

theorem strJoin_cons (s : String) (l : List String) :
    String.join (s :: l) = s ++ String.join l := by
  simp only [String.join, List.foldl]
  rw [strFoldl_shift]
  simp

theorem rowsLoop_eq (rs : List (List String)) : ∀ acc, rowsLoop acc rs = acc ++ rowsStr rs := by
  induction rs with
  | nil => intro acc; simp [rowsLoop, rowsStr, strJoin_nil]
  | cons r rs ih =>
    intro acc
    simp only [rowsLoop, rowsStr, List.map_cons, strJoin_cons]
    rw [ih]
    simp [rowsStr, String.append_assoc]

theorem tablesLoop_eq (ts : List Table) :
    ∀ p i acc, tablesLoop p i acc ts = acc ++ tableBlocksFrom p i ts := by
  induction ts with
  | nil => intro p i acc; simp [tablesLoop, tableBlocksFrom]
  | cons t ts ih =>
    intro p i acc
    simp only [tablesLoop, tableBlocksFrom]
    rw [ih, rowsLoop_eq]
    simp [tableBlock, String.append_assoc]

theorem pagesLoop_eq (ds : List ExtractedData) :
    ∀ p acc, pagesLoop p acc ds = acc ++ docBlocksFrom p ds := by
  induction ds with
  | nil => intro p acc; simp [pagesLoop, docBlocksFrom]
  | cons d ds ih =>
    intro p acc
    simp only [pagesLoop, docBlocksFrom]
    rw [ih, tablesLoop_eq]
    simp [docBlock, docContent, String.append_assoc]

/-- The assembler renders its input as the concatenation of per-document
blocks, in order, pages numbered from 1. -/
theorem generate_markdown_eq (l : List ExtractedData) :
    generate_markdown l = docBlocksFrom 0 l := by
  simpa using pagesLoop_eq l 0 ""

/-- C6: `generate_markdown` renders each table as a heading
`## Table <n> (Page <p>)` (`n` the table's 1-based position in its
document, `p` the document's 1-based position in the input), then a
pipe-delimited header row, a separator row with one `---` cell per header,
then one pipe-delimited line per data row rendered as-is; the single-table
example produces exactly the claimed string. -/
theorem C6_table_rendering :
    (∀ docs : List ExtractedData, generate_markdown docs = docBlocksFrom 0 docs)
    ∧ (∀ (p i : Nat) (t : Table), tableBlock p i t =
        "## Table " ++ toString (i + 1) ++ " (Page " ++ toString (p + 1) ++ ")\n\n"
          ++ "|" ++ String.intercalate "|" t.headers ++ "|\n"
          ++ "|" ++ String.intercalate "|" (List.replicate t.headers.length "---") ++ "|\n"
          ++ String.join (t.rows.map (fun r => "|" ++ String.intercalate "|" r ++ "|\n"))
          ++ "\n")
    ∧ generate_markdown [⟨"", [⟨["A", "B"], [["1", "2"]]⟩]⟩]
        = "## Table 1 (Page 1)\n\n|A|B|\n|---|---|\n|1|2|\n\n---\n\n" := by
  refine ⟨generate_markdown_eq, fun p i t => rfl, by rfl⟩

/-- C7: every document's contribution ends with the page separator
`---` plus a blank line, the final document included; a document with
empty text and no tables contributes exactly the separator; and
`generate_markdown` on the single document `text="Hello"`, no tables,
is exactly `"Hello\n\n---\n\n"`. -/
theorem C7_trailing_separator :
    (∀ docs : List ExtractedData, generate_markdown docs = docBlocksFrom 0 docs)
    ∧ (∀ (p : Nat) (d : ExtractedData), docBlock p d = docContent p d ++ "---\n\n")
    ∧ (∀ p : Nat, docBlock p ⟨"", []⟩ = "---\n\n")
    ∧ generate_markdown [⟨"Hello", []⟩] = "Hello\n\n---\n\n" := by
  refine ⟨generate_markdown_eq, fun p d => rfl, fun p => rfl, by rfl⟩

/-- C8: the assembler is a deterministic pure function of its input:
equal input sequences give byte-identical output (the embedding of
`generate_markdown` is a plain function with no I/O or randomness). -/
theorem C8_deterministic (l₁ l₂ : List ExtractedData) (h : l₁ = l₂) :
    generate_markdown l₁ = generate_markdown l₂ := by
  rw [h]

/-- Witness for C8 at a concrete input. -/
theorem C8_deterministic_witness :
    generate_markdown [⟨"Hello", []⟩] = generate_markdown [⟨"Hello", []⟩] :=
  C8_deterministic [⟨"Hello", []⟩] [⟨"Hello", []⟩] rfl

/-- C1 counterexample: on a fenced, valid-JSON payload whose single table
entry is missing the required `headers`/`rows` sub-fields, `parse` does
not fall back to the raw text — the pydantic validation error escapes the
`except json.JSONDecodeError` handler, so `parse` raises. -/
theorem C1_counterexample :
    parse "```json\n\x7b\"tables\": [\x7b\x7d]\x7d\n```"
      = Except.error "validation error for Table: headers field required" := by rfl

/-- C1 as amended: the decode-failure fallback covers exactly the inputs
that are not fenced, have malformed fence markers, or whose fenced content
is not valid JSON (`json.JSONDecodeError`); for those, `parse` returns the
entire raw text with empty tables and never raises.  (Structurally invalid
but well-formed JSON instead raises, per `C1_counterexample`.) -/
theorem C1_amended (raw : String)
    (h : fencedCheck (pyStrip raw.data) = false
      ∨ jsonLoads (pyStrip (sliceMid (pyStrip raw.data))) = none) :
    parse raw = Except.ok ⟨raw, []⟩ := by
  rcases h with h | h
  · simp [parse, h]
  · by_cases hf : fencedCheck (pyStrip raw.data)
    · simp [parse, hf, h]
    · simp [parse, hf]

/-- Witness for C1 (amended) at concrete inputs: one non-fenced raw text
and one fenced raw text with invalid JSON content. -/
theorem C1_amended_witness :
    parse "plain provider text" = Except.ok ⟨"plain provider text", []⟩
    ∧ parse "```json\nnot json\n```" = Except.ok ⟨"```json\nnot json\n```", []⟩ :=
  ⟨C1_amended "plain provider text" (Or.inl (by decide)),
   C1_amended "```json\nnot json\n```" (Or.inr (by rfl))⟩

/-- C9: trimming is only used to decide fencedness; on every non-fenced
input the fallback document's `text` is the original raw text, leading and
trailing whitespace preserved (the code returns `response.text or ""`,
not the stripped `data`). -/
theorem C9_fallback_untrimmed (raw : String)
    (h : fencedCheck (pyStrip raw.data) = false) :
    parse raw = Except.ok ⟨raw, []⟩ := by
  simp [parse, h]

/-- Witness for C9 at a raw text with leading and trailing whitespace:
the returned text keeps the whitespace. -/
theorem C9_fallback_untrimmed_witness :
    parse "  hello  " = Except.ok ⟨"  hello  ", []⟩ :=
  C9_fallback_untrimmed "  hello  " (by decide)

/-- C3: for every file-system/provider outcome, every path and every mime
kind, the worker's result is either `{markdown, input_tokens,
output_tokens}` — with the markdown assembled by `generate_markdown` from
the extracted documents — or `{error}`; any provider/parsing/assembly
exception is caught and converted, never propagated. -/
theorem C3_worker_total (env : WorkerEnv) (file_path mime_type : String) :
    (∃ docs it ot, process_file env file_path mime_type
        = WorkerResult.ok (generate_markdown docs) it ot)
    ∨ (∃ msg, process_file env file_path mime_type = WorkerResult.err msg) := by
  unfold process_file process_file_body
  by_cases hex : env.fileExists = false
  · exact Or.inr ⟨"File not found: " ++ file_path, by simp [hex]⟩
  · by_cases hpdf : mime_type = "application/pdf"
    · rcases hpe : env.pdfExtract with e | ⟨docs, it, ot⟩
      · exact Or.inr ⟨e, by simp [hex, hpdf, hpe]⟩
      · exact Or.inl ⟨docs, it, ot, by simp [hex, hpdf, hpe]⟩
    · by_cases himg : startsWithL ("image/".data) mime_type.data
      · rcases hie : env.imageExtract with e | ⟨doc, it, ot⟩
        · exact Or.inr ⟨e, by simp [hex, hpdf, himg, hie]⟩
        · exact Or.inl ⟨[doc], it, ot, by simp [hex, hpdf, himg, hie]⟩
      · exact Or.inr ⟨"Unsupported file type: " ++ mime_type, by simp [hex, hpdf, himg]⟩

/-- C10: invoked on a staged file with a mime kind that is neither
`application/pdf` nor `image/*`, the worker returns an `{error}` result
naming the unsupported type, rather than raising. -/
theorem C10_unsupported_mime (env : WorkerEnv) (file_path mime_type : String)
    (hex : env.fileExists = true)
    (hpdf : mime_type ≠ "application/pdf")
    (himg : startsWithL ("image/".data) mime_type.data = false) :
    process_file env file_path mime_type
      = WorkerResult.err ("Unsupported file type: " ++ mime_type) := by
  unfold process_file process_file_body
  simp [hex, hpdf, himg]

/-- Witness for C10 at a concrete invocation with mime `text/plain`. -/
theorem C10_unsupported_mime_witness :
    process_file ⟨true, Except.ok ([], 0, 0), Except.ok (⟨"", []⟩, 0, 0)⟩
        "uploads/a.txt" "text/plain"
      = WorkerResult.err ("Unsupported file type: " ++ "text/plain") :=
  C10_unsupported_mime ⟨true, Except.ok ([], 0, 0), Except.ok (⟨"", []⟩, 0, 0)⟩
    "uploads/a.txt" "text/plain" rfl (by decide) (by decide)

/-- C2 counterexample: an identifier completely unknown to the backend and
a known task still PENDING receive the exact same outcome,
404 `Task not ready yet.` — the two cases the claim requires to be
distinguished are conflated. -/
theorem C2_counterexample :
    get_task_result_json (fun _ => none) "unknown-id"
        = HttpOutcome.httpError 404 "Task not ready yet."
    ∧ get_task_result_json
        (fun id => if id = "pending-id" then some CeleryMeta.pending else none) "pending-id"
        = HttpOutcome.httpError 404 "Task not ready yet." :=
  ⟨rfl, by simp [get_task_result_json, stateOf]⟩

/-- C2 as amended: the result query reports every non-terminal situation —
unknown identifier (which the backend reads as PENDING), PENDING, STARTED
— with the single outcome 404 `Task not ready yet.`; it never consults
the metadata store and has no distinct NotFound outcome. -/
theorem C2_amended (backend : String → Option CeleryMeta) (task_id : String)
    (h : celeryReady (stateOf backend task_id) = false) :
    get_task_result_json backend task_id
      = HttpOutcome.httpError 404 "Task not ready yet." := by
  unfold get_task_result_json
  rcases hs : stateOf backend task_id with _ | _ | _ | r | e | _ <;>
    simp [hs, celeryReady] at h ⊢

/-- Witness for C2 (amended): a backend that knows only one STARTED task,
queried for it and for an unknown id. -/
theorem C2_amended_witness :
    get_task_result_json
        (fun id => if id = "t1" then some CeleryMeta.started else none) "t1"
      = HttpOutcome.httpError 404 "Task not ready yet." :=
  C2_amended (fun id => if id = "t1" then some CeleryMeta.started else none) "t1"
    (by simp [stateOf, celeryReady])

/-- C5: a successful submission returns a task id whose state the result
backend still reads as PENDING (a fresh Celery id has no backend entry),
so querying the result immediately afterwards yields the endpoint's
not-ready outcome, 404 `Task not ready yet.` — and cannot yield anything
else; the endpoint has no separate not-found outcome at all, so a fresh
id is in particular never reported as unknown. -/
theorem C5_submit_then_not_ready (maxFileSize : Nat) (st : AppState) (freshId : String)
    (filename : String) (fileSize : Nat) (mime : String) (now : Nat)
    (st' : AppState) (tid : String)
    (hfresh : st.backend freshId = none)
    (hsub : create_upload_file maxFileSize st freshId filename fileSize mime now
      = Except.ok (st', tid)) :
    get_task_result_json st'.backend tid
      = HttpOutcome.httpError 404 "Task not ready yet." := by
  unfold create_upload_file at hsub
  by_cases h0 : fileSize = 0
  · simp [h0] at hsub
  · by_cases h1 : maxFileSize < fileSize
    · simp [h0, h1] at hsub
    · by_cases h2 : filename = ""
      · simp [h0, h1, h2] at hsub
      · by_cases h3 : (pyStrip filename.data).isEmpty
        · simp [h0, h1, h2, h3] at hsub
        · by_cases h4 : validate_mime_type mime = false
          · simp [h0, h1, h2, h3, h4] at hsub
          · rw [if_neg h0, if_neg h1, if_neg h2, if_neg h3, if_neg h4] at hsub
            have h5 := Except.ok.inj hsub
            have htid : tid = freshId := (congrArg Prod.snd h5).symm
            have hst : st' = _ := (congrArg Prod.fst h5).symm
            subst htid
            subst hst
            simp [get_task_result_json, stateOf, hfresh]

/-- Witness for C5 at a concrete submission into an empty system. -/
theorem C5_submit_then_not_ready_witness :
    get_task_result_json
      (match create_upload_file 10485760
          ⟨fun _ => none, fun _ => none, []⟩ "id-1" "doc.pdf" 4 "application/pdf" 1700000000 with
        | Except.ok (st', _) => st'.backend
        | Except.error _ => fun _ => none) "id-1"
      = HttpOutcome.httpError 404 "Task not ready yet." := by
  exact C5_submit_then_not_ready 10485760 ⟨fun _ => none, fun _ => none, []⟩ "id-1"
    "doc.pdf" 4 "application/pdf" 1700000000 _ "id-1" rfl rfl

/-! ## Round-trip proof: helper lemmas -/

theorem skipWs_cons_neg (c : Char) (h : jWs c = false) (t : List Char) :
    skipWs (c :: t) = c :: t := by
  simp [skipWs, List.dropWhile_cons, h]

theorem startsWithL_refl_append (p t : List Char) : startsWithL p (p ++ t) = true := by
  induction p with
  | nil => rfl
  | cons c cs ih => simp [startsWithL, ih]

theorem hexVal_hexDigitChar : ∀ n < 16, hexVal (hexDigitChar n) = some n := by decide

/-- Decoding inverts `encChar`-by-`encChar` encoding of a string body. -/
theorem parseStringBody_enc (s : List Char) :
    ∀ rest, parseStringBody (encStrBody s ++ ('"' :: rest)) = some (s, rest) := by
  induction s with
  | nil =>
    intro rest
    rw [show encStrBody [] ++ ('"' :: rest) = '"' :: rest from rfl, parseStringBody.eq_def]
    simp
  | cons c cs ih =>
    intro rest
    by_cases h1 : c = '"'
    · subst h1
      simp [encStrBody, encChar, parseStringBody, escChar, ih]
    · by_cases h2 : c = '\\'
      · subst h2
        simp [encStrBody, encChar, parseStringBody, escChar, ih]
      · by_cases h3 : c.toNat < 0x20
        · have hdiv : c.toNat / 16 < 16 := by omega
          have hmod : c.toNat % 16 < 16 := Nat.mod_lt _ (by omega)
          have h0 : hexVal '0' = some 0 := by decide
          simp only [encStrBody, encChar, h1, h2, h3, if_false, if_true, ite_true, ite_false,
            List.cons_append, List.append_assoc]
          rw [parseStringBody.eq_def]
          simp only [List.cons_append]
          simp only [h0, hexVal_hexDigitChar _ hdiv, hexVal_hexDigitChar _ hmod, h2,
            ite_false, if_false]
          have hcond : ((0 * 16 + 0) * 16 + c.toNat / 16) * 16 + c.toNat % 16 < 55296
              ∨ 57344 ≤ ((0 * 16 + 0) * 16 + c.toNat / 16) * 16 + c.toNat % 16 :=
            Or.inl (by omega)
          simp only [if_neg (show ¬('\\' : Char) = '"' by decide), if_pos rfl, hcond, if_pos,
            if_true, ite_true]
          rw [show ((0 * 16 + 0) * 16 + c.toNat / 16) * 16 + c.toNat % 16 = c.toNat from by omega]
          rw [Char.ofNat_toNat]
          simp only [List.nil_append]
          rw [ih]
          rfl
        · rw [show encStrBody (c :: cs) = encChar c ++ encStrBody cs from rfl]
          rw [show encChar c = [c] by simp [encChar, h1, h2, h3]]
          simp only [List.cons_append, List.nil_append]
          rw [parseStringBody.eq_def]
          simp [h1, h2, h3, ih]

theorem encStr_cons (k z : List Char) :
    encStr k ++ z = '"' :: (encStrBody k ++ ('"' :: z)) := by
  simp [encStr]

theorem parseVal_quote (f : Nat) (t : List Char) :
    parseVal (f + 1) ('"' :: t)
      = (parseStringBody t).map (fun p => (JVal.jstr p.1, p.2)) := by
  simp [parseVal, skipWs, List.dropWhile_cons, jWs]

theorem parseVal_lbracket (f : Nat) (t : List Char) :
    parseVal (f + 1) ('[' :: t)
      = (if (skipWs t).head? = some ']' then some (JVal.jarr [], (skipWs t).tail)
         else (parseItemsNE f t).map (fun p => (JVal.jarr p.1, p.2))) := by
  simp [parseVal, skipWs, List.dropWhile_cons, jWs]

theorem parseVal_lbrace (f : Nat) (t : List Char) :
    parseVal (f + 1) ('\x7b' :: t)
      = (if (skipWs t).head? = some '\x7d' then some (JVal.jobj [], (skipWs t).tail)
         else (parseFieldsNE f t).map (fun p => (JVal.jobj p.1, p.2))) := by
  simp [parseVal, skipWs, List.dropWhile_cons, jWs]

theorem parseVal_encStr (s : List Char) (f : Nat) (rest : List Char) (hf : 1 ≤ f) :
    parseVal f (encStr s ++ rest) = some (JVal.jstr s, rest) := by
  obtain ⟨f', rfl⟩ : ∃ f', f = f' + 1 := ⟨f - 1, by omega⟩
  rw [encStr_cons, parseVal_quote, parseStringBody_enc]
  rfl

theorem sumB_const_one (l : List α) : sumB (fun _ => 1) l = l.length := by
  induction l with
  | nil => rfl
  | cons a as ih =>
    simp only [sumB, ih, List.length_cons]
    omega

theorem encSep_cons (enc : α → List Char) (a : α) (as : List α) :
    ∃ X, encSep enc (a :: as) = enc a ++ X := by
  cases as with
  | nil => exact ⟨[], by simp [encSep]⟩
  | cons a2 as2 => exact ⟨(',' :: encSep enc (a2 :: as2)), rfl⟩

/-- Parsing the elements of a non-empty encoded array consumes exactly
the encoded elements and the closing bracket. -/
theorem parseItemsNE_encSep {enc : α → List Char} {val : α → JVal} {b : α → Nat}
    (he : ElemEnc enc val b) (xs : List α) :
    xs ≠ [] → ∀ f rest, sumB b xs + xs.length ≤ f →
      parseItemsNE f (encSep enc xs ++ (']' :: rest)) = some (xs.map val, rest) := by
  induction xs with
  | nil => intro h; exact absurd rfl h
  | cons a as ih =>
    intro _ f rest hf
    have hf1 : 1 ≤ f := by
      have := hf
      simp [sumB] at this
      omega
    obtain ⟨f', rfl⟩ : ∃ f', f = f' + 1 := ⟨f - 1, by omega⟩
    cases as with
    | nil =>
      have hv := he.2 a f' (']' :: rest) (by simp [sumB] at hf ⊢; omega)
      rw [show encSep enc [a] = enc a from rfl]
      simp only [parseItemsNE, hv, skipWs_cons_neg ']' (by decide)]
      simp
    | cons a2 as2 =>
      have hv := he.2 a f' (',' :: (encSep enc (a2 :: as2) ++ (']' :: rest)))
        (by simp [sumB] at hf ⊢; omega)
      have hi := ih (by simp) f' rest (by simp [sumB] at hf ⊢; omega)
      rw [show encSep enc (a :: a2 :: as2) = enc a ++ (',' :: encSep enc (a2 :: as2)) from rfl]
      rw [List.append_assoc, List.cons_append]
      simp only [parseItemsNE, hv, skipWs_cons_neg ',' (by decide), List.head?_cons,
        List.tail_cons]
      simp only [if_true, ite_true]
      rw [hi]
      simp

/-- Parsing an encoded array yields the array of the elements' values. -/
theorem parseVal_encArr {enc : α → List Char} {val : α → JVal} {b : α → Nat}
    (he : ElemEnc enc val b) (xs : List α) (f : Nat) (rest : List Char)
    (hf : sumB b xs + xs.length + 1 ≤ f) :
    parseVal f (encArr enc xs ++ rest) = some (JVal.jarr (xs.map val), rest) := by
  obtain ⟨f', rfl⟩ : ∃ f', f = f' + 1 := ⟨f - 1, by omega⟩
  rw [show encArr enc xs ++ rest = '[' :: (encSep enc xs ++ (']' :: rest)) by
    simp [encArr, encWrap, List.append_assoc]]
  rw [parseVal_lbracket]
  cases xs with
  | nil =>
    rw [show encSep enc ([] : List α) = [] from rfl]
    rw [show ([] : List Char) ++ (']' :: rest) = ']' :: rest from rfl]
    rw [skipWs_cons_neg ']' (by decide)]
    simp
  | cons a as =>
    obtain ⟨X, hX⟩ := encSep_cons enc a as
    obtain ⟨c, tl, hct, hws, hne⟩ := he.1 a
    have hshape : encSep enc (a :: as) ++ (']' :: rest) = c :: (tl ++ X ++ (']' :: rest)) := by
      rw [hX, hct]
      simp [List.append_assoc]
    rw [hshape, skipWs_cons_neg c hws]
    simp only [List.head?_cons, Option.some.injEq]
    rw [if_neg (by simpa using hne)]
    rw [← hshape, parseItemsNE_encSep he (a :: as) (by simp) f' rest (by omega)]
    rfl

/-- Encoded strings are well-behaved array elements. -/
theorem elemEncStr : ElemEnc (fun s : String => encStr s.data) strVal (fun _ => 1) := by
  constructor
  · intro a
    exact ⟨'"', encStrBody a.data ++ ['"'], rfl, by decide, by decide⟩
  · intro a f rest hf
    exact parseVal_encStr a.data f rest hf

/-- Encoded rows are well-behaved array elements. -/
theorem elemEncRow : ElemEnc encRow rowVal (fun r => 2 * r.length + 1) := by
  constructor
  · intro r
    exact ⟨'[', encSep (fun s => encStr s.data) r ++ [']'], rfl, by decide, by decide⟩
  · intro r f rest hf
    have hf' : 2 * r.length + 1 ≤ f := hf
    have h := parseVal_encArr elemEncStr r f rest (by rw [sumB_const_one]; omega)
    simpa [encRow, rowVal] using h

/-- Parsing an encoded table yields `tableVal`. -/
theorem parseVal_encTable (t : Table) (f : Nat) (rest : List Char) (hf : bTable t ≤ f) :
    parseVal f (encTable t ++ rest) = some (tableVal t, rest) := by
  have hf4 : 4 ≤ f := by
    have : 4 ≤ bTable t := by simp [bTable]; omega
    omega
  obtain ⟨f1, rfl⟩ : ∃ f1, f = f1 + 1 := ⟨f - 1, by omega⟩
  obtain ⟨f2, rfl⟩ : ∃ f2, f1 = f2 + 1 := ⟨f1 - 1, by omega⟩
  obtain ⟨f3, rfl⟩ : ∃ f3, f2 = f3 + 1 := ⟨f2 - 1, by omega⟩
  have hshape : encTable t ++ rest
      = '\x7b' :: (encStr ("headers".data)
          ++ (':' :: (encArr (fun s => encStr s.data) t.headers
            ++ (',' :: (encStr ("rows".data)
              ++ (':' :: (encArr encRow t.rows ++ ('\x7d' :: rest)))))))) := by
    simp [encTable, encWrap, List.append_assoc]
  rw [hshape, parseVal_lbrace]
  rw [encStr_cons ("headers".data), skipWs_cons_neg '"' (by decide)]
  simp only [List.head?_cons, List.tail_cons]
  rw [if_neg (by decide)]
  have hv1 := parseVal_encArr elemEncStr t.headers (f3 + 1)
    (',' :: (encStr ("rows".data) ++ (':' :: (encArr encRow t.rows ++ ('\x7d' :: rest)))))
    (by simp [bTable, sumB_const_one] at hf ⊢; omega)
  have hv2 := parseVal_encArr elemEncRow t.rows f3 ('\x7d' :: rest)
    (by simp [bTable] at hf ⊢; omega)
  simp only [encStr_cons] at hv1 hv2 ⊢
  simp only [parseFieldsNE, skipWs_cons_neg '"' (by decide), skipWs_cons_neg ':' (by decide),
    skipWs_cons_neg ',' (by decide), skipWs_cons_neg '\x7d' (by decide),
    List.head?_cons, List.tail_cons, Option.some.injEq, parseStringBody_enc,
    hv1, hv2, if_true, ite_true]
  simp [tableVal]

/-- Encoded tables are well-behaved array elements. -/
theorem elemEncTable : ElemEnc encTable tableVal bTable := by
  constructor
  · intro t
    exact ⟨'\x7b', _, rfl, by decide, by decide⟩
  · intro t f rest hf
    exact parseVal_encTable t f rest hf

/-- Parsing an encoded document yields `docVal`. -/
theorem parseVal_encodeDoc (d : ExtractedData) (f : Nat) (rest : List Char)
    (hf : bDoc d ≤ f) :
    parseVal f (encodeDoc d ++ rest) = some (docVal d, rest) := by
  have hf4 : 4 ≤ f := by
    have : 4 ≤ bDoc d := by simp [bDoc]
    omega
  obtain ⟨f1, rfl⟩ : ∃ f1, f = f1 + 1 := ⟨f - 1, by omega⟩
  obtain ⟨f2, rfl⟩ : ∃ f2, f1 = f2 + 1 := ⟨f1 - 1, by omega⟩
  obtain ⟨f3, rfl⟩ : ∃ f3, f2 = f3 + 1 := ⟨f2 - 1, by omega⟩
  have hshape : encodeDoc d ++ rest
      = '\x7b' :: (encStr ("text".data)
          ++ (':' :: (encStr d.text.data
            ++ (',' :: (encStr ("tables".data)
              ++ (':' :: (encArr encTable d.tables ++ ('\x7d' :: rest)))))))) := by
    simp [encodeDoc, encWrap, List.append_assoc]
  rw [hshape, parseVal_lbrace]
  rw [encStr_cons ("text".data), skipWs_cons_neg '"' (by decide)]
  simp only [List.head?_cons, List.tail_cons]
  rw [if_neg (by decide)]
  have hv1 := parseVal_encStr d.text.data (f3 + 1)
    (',' :: (encStr ("tables".data) ++ (':' :: (encArr encTable d.tables ++ ('\x7d' :: rest)))))
    (by omega)
  have hv2 := parseVal_encArr elemEncTable d.tables f3 ('\x7d' :: rest)
    (by simp [bDoc] at hf ⊢; omega)
  simp only [encStr_cons] at hv1 hv2 ⊢
  simp only [parseFieldsNE, skipWs_cons_neg '"' (by decide), skipWs_cons_neg ':' (by decide),
    skipWs_cons_neg ',' (by decide), skipWs_cons_neg '\x7d' (by decide),
    List.head?_cons, List.tail_cons, Option.some.injEq, parseStringBody_enc,
    hv1, hv2, if_true, ite_true]
  simp [docVal]

theorem encStr_len_ge (s : List Char) : 2 ≤ (encStr s).length := by
  simp [encStr]

theorem encSep_bound {enc : α → List Char} {b : α → Nat} :
    ∀ xs : List α, (∀ a ∈ xs, b a ≤ (enc a).length) → xs ≠ [] →
      sumB b xs + xs.length ≤ (encSep enc xs).length + 1 := by
  intro xs
  induction xs with
  | nil => intro _ h; exact absurd rfl h
  | cons a as ih =>
    intro h _
    cases as with
    | nil =>
      have := h a (by simp)
      simp [encSep, sumB]
      omega
    | cons a2 as2 =>
      have h1 := h a (by simp)
      have h2 := ih (fun x hx => h x (by simp [hx])) (by simp)
      rw [show encSep enc (a :: a2 :: as2) = enc a ++ (',' :: encSep enc (a2 :: as2)) from rfl]
      simp only [sumB, List.length_cons, List.length_append] at h2 ⊢
      omega

theorem encArr_bound {enc : α → List Char} {b : α → Nat}
    (xs : List α) (h : ∀ a ∈ xs, b a ≤ (enc a).length) :
    sumB b xs + xs.length + 1 ≤ (encArr enc xs).length := by
  cases hx : xs with
  | nil => simp [encArr, encWrap, encSep, sumB]
  | cons a as =>
    have hsep := encSep_bound (a :: as) (hx ▸ h) (by simp)
    have hlen : (encArr enc (a :: as)).length = (encSep enc (a :: as)).length + 2 := by
      simp [encArr, encWrap, List.length_append]
    omega

theorem one_le_encStrField (a : String) :
    (fun _ : String => (1 : Nat)) a ≤ ((fun s : String => encStr s.data) a).length := by
  have := encStr_len_ge a.data
  simpa using by omega

theorem bRow_le (r : List String) : 2 * r.length + 1 ≤ (encRow r).length := by
  have h := @encArr_bound String (fun s : String => encStr s.data) (fun _ => 1) r
    (fun a _ => one_le_encStrField a)
  rw [sumB_const_one] at h
  rw [show encRow r = encArr (fun s => encStr s.data) r from rfl]
  omega

theorem bTable_le (t : Table) : bTable t ≤ (encTable t).length := by
  have hH := @encArr_bound String (fun s : String => encStr s.data) (fun _ => 1) t.headers
    (fun a _ => one_le_encStrField a)
  rw [sumB_const_one] at hH
  have hR := @encArr_bound (List String) encRow (fun r => 2 * r.length + 1) t.rows
    (fun r _ => bRow_le r)
  have hk1 : (encStr ("headers".data)).length = 9 := rfl
  have hk2 : (encStr ("rows".data)).length = 6 := rfl
  simp only [bTable, encTable, encWrap, List.length_cons, List.length_append,
    List.length_singleton, hk1, hk2]
  omega

theorem bDoc_le (d : ExtractedData) : bDoc d ≤ (encodeDoc d).length := by
  have hT := @encArr_bound Table encTable bTable d.tables (fun t _ => bTable_le t)
  have htx := encStr_len_ge d.text.data
  have hk1 : (encStr ("text".data)).length = 6 := rfl
  have hk2 : (encStr ("tables".data)).length = 8 := rfl
  simp only [bDoc, encodeDoc, encWrap, List.length_cons, List.length_append,
    List.length_singleton, hk1, hk2]
  omega

/-- The model of `json.loads` recovers the document value from its
canonical encoding. -/
theorem jsonLoads_encodeDoc (d : ExtractedData) :
    jsonLoads (encodeDoc d) = some (docVal d) := by
  unfold jsonLoads
  have h := parseVal_encodeDoc d (2 * (encodeDoc d).length + 2) []
    (by have := bDoc_le d; omega)
  rw [List.append_nil] at h
  rw [h]
  simp [skipWs]

theorem strListOfJ_map (l : List String) : strListOfJ (l.map strVal) = some l := by
  induction l with
  | nil => rfl
  | cons s ss ih => simp [strListOfJ, asStr, strVal, ih]

theorem rowListOfJ_map (rs : List (List String)) : rowListOfJ (rs.map rowVal) = some rs := by
  induction rs with
  | nil => rfl
  | cons r rest ih => simp [rowListOfJ, asStrList, rowVal, strListOfJ_map, ih]

theorem tableOfJson_tableVal (t : Table) : tableOfJson (tableVal t) = Except.ok t := by
  simp [tableOfJson, tableVal, objGet, asStrList, asRows, strListOfJ_map, rowListOfJ_map]

theorem tablesOfJson_map (ts : List Table) : tablesOfJson (ts.map tableVal) = Except.ok ts := by
  induction ts with
  | nil => rfl
  | cons t rest ih => simp [tablesOfJson, tableOfJson_tableVal, ih]

/-- Structured validation recovers the document from its JSON value. -/
theorem extractedOfJson_docVal (d : ExtractedData) :
    extractedOfJson (docVal d) = Except.ok d := by
  simp [extractedOfJson, docVal, objGet, tablesIter, tablesOfJson_map, asStr]

theorem dropWhile_cons_false (p : Char → Bool) (c : Char) (t : List Char) (h : p c = false) :
    List.dropWhile p (c :: t) = c :: t := by
  simp [List.dropWhile_cons, h]

/-- Stripping the fenced raw text leaves it unchanged: it starts and ends
with a backtick. -/
theorem pyStrip_fenceWrap (s : List Char) :
    pyStrip ("```json\n".data ++ s ++ "\n```".data)
      = "```json\n".data ++ s ++ "\n```".data := by
  have hfront : List.dropWhile pyIsSpace ("```json\n".data ++ s ++ "\n```".data)
      = "```json\n".data ++ s ++ "\n```".data := by
    rw [show ("```json\n".data : List Char) = '\x60' :: "``json\n".data from rfl]
    simp only [List.cons_append]
    exact dropWhile_cons_false _ _ _ (by decide)
  have hback : List.dropWhile pyIsSpace ("```json\n".data ++ s ++ "\n```".data).reverse
      = ("```json\n".data ++ s ++ "\n```".data).reverse := by
    rw [List.reverse_append, List.reverse_append]
    rw [show ("\n```".data : List Char).reverse = '\x60' :: "``\n".data from rfl]
    simp only [List.cons_append]
    exact dropWhile_cons_false _ _ _ (by decide)
  unfold pyStrip
  rw [hfront, hback, List.reverse_reverse]

/-- The fence test accepts the wrapped payload. -/
theorem fencedCheck_fenceWrap (s : List Char) :
    fencedCheck ("```json\n".data ++ s ++ "\n```".data) = true := by
  unfold fencedCheck endsWithL
  rw [Bool.and_eq_true]
  constructor
  · rw [show ("```json\n".data : List Char) = "```json".data ++ ['\n'] from rfl]
    rw [List.append_assoc, List.append_assoc]
    exact startsWithL_refl_append _ _
  · rw [List.reverse_append, List.reverse_append]
    rw [show ("\n```".data : List Char).reverse = "```".data ++ ['\n'] from rfl]
    rw [show ("```".data : List Char).reverse = "```".data from rfl]
    rw [List.append_assoc]
    exact startsWithL_refl_append _ _

/-- Slicing `data[7:-3]` of the fenced payload leaves the payload framed
by the two fence-line newlines. -/
theorem sliceMid_fenceWrap (s : List Char) :
    sliceMid ("```json\n".data ++ s ++ "\n```".data) = '\n' :: (s ++ ['\n']) := by
  have hlen : ("```json\n".data ++ s ++ "\n```".data).length - 10 = s.length + 2 := by
    simp [List.length_append]
  unfold sliceMid
  rw [hlen]
  rw [show ("```json\n".data : List Char) ++ s ++ "\n```".data
    = "```json".data ++ ('\n' :: (s ++ "\n```".data)) by simp]
  rw [show (7 : Nat) = ("```json".data : List Char).length from rfl, List.drop_left]
  rw [show s.length + 2 = (s.length + 1) + 1 from rfl, List.take_succ_cons]
  rw [List.take_append]
  rfl

/-- Stripping a payload framed by single newlines recovers the payload
when it opens and closes with non-whitespace characters. -/
theorem pyStrip_newline_wrap (o c : Char) (inner : List Char)
    (ho : pyIsSpace o = false) (hc : pyIsSpace c = false) :
    pyStrip ('\n' :: (encWrap o c inner ++ ['\n'])) = encWrap o c inner := by
  unfold pyStrip encWrap
  rw [show ('\n' :: ((o :: (inner ++ [c])) ++ ['\n']))
      = '\n' :: (o :: ((inner ++ [c]) ++ ['\n'])) by simp]
  rw [List.dropWhile_cons, if_pos (by decide)]
  rw [dropWhile_cons_false _ o _ ho]
  rw [show (o :: ((inner ++ [c]) ++ ['\n'])).reverse
      = '\n' :: (c :: (inner.reverse ++ [o])) by simp]
  rw [List.dropWhile_cons, if_pos (by decide)]
  rw [dropWhile_cons_false _ c _ hc]
  rw [show (c :: (inner.reverse ++ [o])).reverse = o :: (inner ++ [c]) by simp]

/-- Stripping the sliced payload recovers exactly the encoded document. -/
theorem pyStrip_encodeDoc (d : ExtractedData) :
    pyStrip ('\n' :: (encodeDoc d ++ ['\n'])) = encodeDoc d := by
  unfold encodeDoc
  exact pyStrip_newline_wrap _ _ _ (by decide) (by decide)

/-- C4: `parse` recovers exactly the encoded text and tables from every
well-formed fenced JSON encoding of a document — encoding (with the
canonical emitter `encodeDoc`, fenced by `fenceWrap`) followed by parsing
is the identity on documents. -/
theorem C4_roundtrip (d : ExtractedData) :
    parse (fenceWrap (encodeDoc d)) = Except.ok d := by
  have hdata : (fenceWrap (encodeDoc d)).data
      = "```json\n".data ++ encodeDoc d ++ "\n```".data := rfl
  unfold parse
  rw [hdata, pyStrip_fenceWrap, fencedCheck_fenceWrap, if_pos rfl]
  rw [sliceMid_fenceWrap, pyStrip_encodeDoc, jsonLoads_encodeDoc]
  exact extractedOfJson_docVal d

end App
